import Mathlib

/-!
Shallow embedding of the BlockPlain RAG ingestion pipeline
(`blockplain_rag/app/connectors/stream.py` and
`blockplain_rag/pipeline/embeddings.py`) and proofs about it.

Raw source records are JSON-like dictionaries; we model them as partial
maps from field names to values (`Rec`).  The value universe `Val` covers
the shapes the upstream source produces (strings, non-negative integers,
lists).  Python `str()` rendering of a value inside an f-string is modelled
by `Val.render`, with `Val.reprStr` modelling `repr` as used for list
elements.
-/

/-- JSON-like field values of a raw source record. -/
inductive Val where
  | vStr  (s : String)
  | vNat  (n : Nat)
  | vList (l : List Val)

/-- Decimal digits of a natural number, least significant first; `fuel`
bounds the recursion (any `fuel ≥ n` is exact). -/
def digitsRev : Nat → Nat → List Nat
  | 0, _ => []
  | fuel + 1, n => if n = 0 then [] else n % 10 :: digitsRev fuel (n / 10)

/-- Decimal rendering of a natural number, as Python `str(int)` does. -/
def natStr (n : Nat) : String :=
  if n = 0 then "0" else String.mk (((digitsRev n n).map Nat.digitChar).reverse)

/-- Inverse of `Nat.digitChar` on decimal digits. -/
def charToDigit (c : Char) : Nat := c.toNat - 48

/-- Decode the decimal rendering of a natural number. -/
def natVal (s : String) : Nat :=
  Nat.ofDigits 10 (s.data.reverse.map charToDigit)

mutual

/-- Python `repr` of a value (used for elements inside a rendered list). -/
def Val.reprStr : Val → String
  | .vStr s  => "'" ++ s ++ "'"
  | .vNat n  => natStr n
  | .vList l => "[" ++ String.intercalate ", " (reprList l) ++ "]"

/-- `repr` of each element of a list of values. -/
def reprList : List Val → List String
  | [] => []
  | v :: vs => Val.reprStr v :: reprList vs

end

/-- Python `str()` of a value, as interpolated into an f-string. -/
def Val.render : Val → String
  | .vStr s  => s
  | .vNat n  => natStr n
  | .vList l => "[" ++ String.intercalate ", " (reprList l) ++ "]"

/-- A raw source record: a dictionary from field names to values. -/
def Rec := String → Option Val

/-- The record with no fields at all. -/
def emptyRec : Rec := fun _ => none

/-- Python `d[k] = v`: update one key of a record in place. -/
def setF (r : Rec) (k : String) (v : Val) : Rec :=
  fun k' => if k' = k then some v else r k'

/-- Python `d.get(k, default)`. -/
def getD (r : Rec) (k : String) (d : Val) : Val :=
  match r k with
  | some v => v
  | none => d

/-- `f"{d.get(k, '?')}"`: render a field, `"?"` when missing. -/
def renderGet (r : Rec) (k : String) : String :=
  match r k with
  | some v => v.render
  | none => "?"

/-- `block.get("Data", [])` followed by `enumerate`: the list iterated over.
Python iterates lists element-wise and strings character-wise; a present
non-iterable value (a number) raises `TypeError`, modelled as `none`. -/
def enumData : Option Val → Option (List Val)
  | none => some []
  | some (.vList l) => some l
  | some (.vStr s) => some (s.data.map fun c => .vStr (String.mk [c]))
  | some (.vNat _) => none

/-- The enumerated transaction lines `f"  {i+1}. {tx}\n"` of a block's text,
starting at index `i`. -/
def txLines (i : Nat) : List Val → String
  | [] => ""
  | tx :: rest => "  " ++ natStr i ++ ". " ++ tx.render ++ "\n" ++ txLines (i + 1) rest

/-- The searchable text built for a block by `_process_block`, given the
iterated `Data` list. -/
def blockTextWith (b : Rec) (dataL : List Val) : String :=
  "Block at [" ++ renderGet b "X" ++ ", " ++ renderGet b "Y" ++ "]\n" ++
  "Hash: " ++ renderGet b "Hash" ++ "\n" ++
  "Previous Hashes: X=" ++ renderGet b "PrevHashX" ++ ", Y=" ++ renderGet b "PrevHashY" ++ "\n" ++
  "Context: " ++ renderGet b "Context" ++ "\n" ++
  "Timestamp: " ++ renderGet b "Timestamp" ++ "\n" ++
  "Transactions:\n" ++
  txLines 1 dataL

/-- `f"block_{block.get('X', 0)}_{block.get('Y', 0)}"`. -/
def blockId (b : Rec) : String :=
  "block_" ++ (getD b "X" (.vNat 0)).render ++ "_" ++ (getD b "Y" (.vNat 0)).render

/-- `f"tx_{tx.get('ID', '')}"`. -/
def txId (t : Rec) : String :=
  "tx_" ++ (getD t "ID" (.vStr "")).render

/-- The three mutations `_process_block` performs on the record: set
`_document_type`, then `_text` (computed from the already-mutated dict),
then `_id`. -/
def blockDoc (b : Rec) (dataL : List Val) : Rec :=
  let b1 := setF b "_document_type" (.vStr "block")
  let b2 := setF b1 "_text" (.vStr (blockTextWith b1 dataL))
  setF b2 "_id" (.vStr (blockId b2))

/-- `_process_block`: mutates the record, adding `_document_type`, `_text`
and `_id`, and returns it (the caller enqueues it).  `none` models the
`TypeError` Python raises when a present `Data` field is not iterable. -/
def processBlock (b : Rec) : Option Rec :=
  match enumData (b "Data") with
  | none => none
  | some dataL => some (blockDoc b dataL)

/-- The searchable text built for a transaction by `_process_transaction`. -/
def txText (t : Rec) : String :=
  "Transaction " ++ renderGet t "ID" ++ "\n" ++
  "Data: " ++ renderGet t "Data" ++ "\n"

/-- `_process_transaction`: mutates the record, adding `_document_type`,
`_text` and `_id`, and returns it.  Total: no field is iterated. -/
def processTx (t : Rec) : Rec :=
  let t1 := setF t "_document_type" (.vStr "transaction")
  let t2 := setF t1 "_text" (.vStr (txText t1))
  setF t2 "_id" (.vStr (txId t2))

/-!
Embedding engine (`blockplain_rag/pipeline/embeddings.py`).  The
SentenceTransformer model is external; we model it as an oracle whose
`encode` calls either return vectors or fail (the `except Exception`
branch).  Vector components are rationals standing for the floats.
-/

/-- The external SentenceTransformer model: its fixed embedding dimension
`D` and its fallible single/batch encode calls. -/
structure Model where
  dim : Nat
  encodeOne : String → Except String (List ℚ)
  encodeMany : List String → Except String (List (List ℚ))

/-- `EmbeddingEngine.embed_text`: the model's vector, or on any model
failure the zero vector of length `D` (never propagates). -/
def embed_text (m : Model) (text : String) : List ℚ :=
  match m.encodeOne text with
  | .ok v => v
  | .error _ => List.replicate m.dim 0

/-- `EmbeddingEngine.embed_batch`: the model's vectors, or on any model
failure one zero vector of length `D` per input text. -/
def embed_batch (m : Model) (texts : List String) : List (List ℚ) :=
  match m.encodeMany texts with
  | .ok vs => vs
  | .error _ => List.replicate texts.length (List.replicate m.dim 0)

/-!
Ingestion queue and stream supervisor (`stream.py`).  `asyncio.Queue` is a
FIFO: `put` appends at the back, the single consumer (`pathway_connector`'s
`run` loop) pops from the front.  The interleaving of the two producer
sources (initial load, live updates) is a trace of tagged enqueue events.
-/

/-- Which logical producer enqueued a document. -/
inductive Source where
  | initialLoad
  | liveUpdate
deriving DecidableEq, BEq

/-- `queue.put(d)`: FIFO append at the back. -/
def put (q : List Rec) (d : Rec) : List Rec := q ++ [d]

/-- The consumer loop `item = await self.queue.get()` repeated until the
queue is empty: documents leave in FIFO order. -/
def drainQ : List Rec → List Rec
  | [] => []
  | d :: q => d :: drainQ q

/-- The queue contents after an interleaved trace of enqueue events. -/
def enqueueTrace (evs : List (Source × Rec)) : List Rec :=
  evs.foldl (fun q e => put q e.2) []

/-- The order in which the consumer applies documents to the index, for a
given interleaving of producer enqueues. -/
def appliedSeq (evs : List (Source × Rec)) : List Rec :=
  drainQ (enqueueTrace evs)

/-- Outcome of one pass through the `async for` subscription loop of
`_stream_updates`: the subscription raised, or was exhausted normally. -/
inductive Outcome where
  | errored
  | ended

/-- The wait before the next subscription attempt: `await asyncio.sleep(5)`
in the `except` branch; a normal loop exit re-enters `while` at once. -/
def reconnectDelay : Outcome → Nat
  | .errored => 5
  | .ended => 0

/-- `_stream_updates` as a trace of `(attempt index, wait after it)` pairs:
at each iteration the `while` condition consults the stop event; if unset,
attempt `i` runs with outcome `out i` and is followed by its wait.  `fuel`
bounds the observed prefix of the infinite loop. -/
def streamRunAux (stop : Nat → Bool) (out : Nat → Outcome) : Nat → Nat → List (Nat × Nat)
  | 0, _ => []
  | fuel + 1, i =>
    if stop i then []
    else (i, reconnectDelay (out i)) :: streamRunAux stop out fuel (i + 1)

/-!
Initial load and startup (`_load_initial_state`, `start`).  The connector's
`get_blocks()` / `get_transactions()` are external calls that may raise,
modelled as `Except` inputs.  Processing a block may itself raise (bad
`Data`); the surrounding `try` catches everything, keeps what was already
enqueued, and returns normally.
-/

/-- Enqueue the documents of a list of records one by one with a fallible
processor; stop at the first record whose processing raises.  Returns the
enqueued documents and whether the loop finished without raising. -/
def enqueueAll (f : Rec → Option Rec) : List Rec → List Rec × Bool
  | [] => ([], true)
  | r :: rest =>
    match f r with
    | none => ([], false)
    | some d =>
      let p := enqueueAll f rest
      (d :: p.1, p.2)

/-- `_load_initial_state`: the documents it enqueues.  All blocks first,
then all pending transactions; any exception (a failed fetch, a bad
record) is caught and logged, keeping what was already enqueued. -/
def loadInitialState (blocksRes : Except String (List Rec))
    (txsRes : Except String (List Rec)) : List Rec :=
  match blocksRes with
  | .error _ => []
  | .ok blocks =>
    let pb := enqueueAll processBlock blocks
    if pb.2 then
      match txsRes with
      | .error _ => pb.1
      | .ok txs => pb.1 ++ (enqueueAll (fun t => some (processTx t)) txs).1
    else pb.1

/-- `start`: `await self._load_initial_state()` runs to completion, then
the live-update task begins; the total enqueue order is every initial-load
document followed by the live stream's documents. -/
def startTrace (blocksRes : Except String (List Rec))
    (txsRes : Except String (List Rec)) (streamDocs : List Rec) : List Rec :=
  loadInitialState blocksRes txsRes ++ streamDocs

/-!
Derived notions and concrete records used to instantiate the theorems.
-/

/-- `t` occurs as a contiguous substring of `s`. -/
def containsSub (s t : String) : Prop := t.data <:+: s.data

instance (s t : String) : Decidable (containsSub s t) := by
  unfold containsSub; infer_instance

/-- The record's `Data` field, when present, is iterable (Python raises
`TypeError` inside `_process_block` only on a present non-iterable). -/
def DataOk (b : Rec) : Prop := (enumData (b "Data")).isSome = true

/-- The searchable text stored by `_process_block` for record `b`. -/
def blockDocText (b : Rec) : String :=
  blockTextWith (setF b "_document_type" (.vStr "block")) ((enumData (b "Data")).getD [])

/-- A block record carrying only an `X` coordinate. -/
def blkMissingY : Rec := fun k => if k = "X" then some (.vNat 1) else none

/-- A block record at position `(1, 0)`, both coordinates present. -/
def blkAtOneZero : Rec :=
  fun k => if k = "X" then some (.vNat 1) else if k = "Y" then some (.vNat 0) else none

/-- A block record at explicit coordinates `(a, b)`. -/
def blockRecXY (a b : Nat) : Rec :=
  fun k => if k = "X" then some (.vNat a) else if k = "Y" then some (.vNat b) else none

/-- A transaction record with an explicit string `ID`. -/
def txRecID (s : String) : Rec := fun k => if k = "ID" then some (.vStr s) else none

/-- A block record with every consumed field present except `Data`, and no
`?` anywhere in its field values. -/
def blkNoData : Rec := fun k =>
  if k = "X" then some (.vNat 1)
  else if k = "Y" then some (.vNat 2)
  else if k = "Hash" then some (.vStr "h")
  else if k = "PrevHashX" then some (.vStr "p")
  else if k = "PrevHashY" then some (.vStr "q")
  else if k = "Context" then some (.vStr "c")
  else if k = "Timestamp" then some (.vNat 3)
  else none

/-- A stop event that is never set. -/
def stopNever : Nat → Bool := fun _ => false

/-- A subscription that always ends normally (exhausts without raising). -/
def alwaysEnded : Nat → Outcome := fun _ => .ended

/-- A subscription that always terminates by raising. -/
def alwaysErrored : Nat → Outcome := fun _ => .errored

/-- A model whose encode calls always fail, with dimension 3. -/
def failModel : Model :=
  ⟨3, fun _ => .error "model failure", fun _ => .error "model failure"⟩

/-!
Helper lemmas: record updates, decimal rendering, and substring facts.
-/

theorem setF_self (r : Rec) (k : String) (v : Val) : setF r k v k = some v := by
  simp [setF]

theorem setF_other (r : Rec) (k k' : String) (v : Val) (h : k' ≠ k) :
    setF r k v k' = r k' := by
  simp [setF, h]

theorem renderGet_congr {r r' : Rec} (k : String) (h : r k = r' k) :
    renderGet r k = renderGet r' k := by
  unfold renderGet; rw [h]

theorem getD_congr {r r' : Rec} (k : String) (d : Val) (h : r k = r' k) :
    getD r k d = getD r' k d := by
  unfold getD; rw [h]

theorem blockTextWith_fields {r r' : Rec} (l : List Val)
    (hX : r "X" = r' "X") (hY : r "Y" = r' "Y") (hH : r "Hash" = r' "Hash")
    (hPX : r "PrevHashX" = r' "PrevHashX") (hPY : r "PrevHashY" = r' "PrevHashY")
    (hC : r "Context" = r' "Context") (hT : r "Timestamp" = r' "Timestamp") :
    blockTextWith r l = blockTextWith r' l := by
  unfold blockTextWith
  rw [renderGet_congr _ hX, renderGet_congr _ hY, renderGet_congr _ hH,
    renderGet_congr _ hPX, renderGet_congr _ hPY, renderGet_congr _ hC,
    renderGet_congr _ hT]

theorem blockId_fields {r r' : Rec} (hX : r "X" = r' "X") (hY : r "Y" = r' "Y") :
    blockId r = blockId r' := by
  unfold blockId; rw [getD_congr _ _ hX, getD_congr _ _ hY]

theorem txText_fields {r r' : Rec} (hI : r "ID" = r' "ID") (hD : r "Data" = r' "Data") :
    txText r = txText r' := by
  unfold txText; rw [renderGet_congr _ hI, renderGet_congr _ hD]

theorem txId_fields {r r' : Rec} (hI : r "ID" = r' "ID") : txId r = txId r' := by
  unfold txId; rw [getD_congr _ _ hI]

/-- Reads of keys other than the three added ones pass through the
mutations of `_process_block`. -/
theorem blockDoc_src (b : Rec) (l : List Val) (k : String)
    (h1 : k ≠ "_document_type") (h2 : k ≠ "_text") (h3 : k ≠ "_id") :
    blockDoc b l k = b k := by
  simp only [blockDoc]
  rw [setF_other _ _ _ _ h3, setF_other _ _ _ _ h2, setF_other _ _ _ _ h1]

theorem blockDoc_at_dt (b : Rec) (l : List Val) :
    blockDoc b l "_document_type" = some (.vStr "block") := rfl

theorem blockDoc_at_text (b : Rec) (l : List Val) :
    blockDoc b l "_text" = some (.vStr (blockTextWith b l)) := rfl

theorem blockDoc_at_id (b : Rec) (l : List Val) :
    blockDoc b l "_id" = some (.vStr (blockId b)) := rfl

/-- Reads of keys other than the three added ones pass through the
mutations of `_process_transaction`. -/
theorem processTx_src (t : Rec) (k : String)
    (h1 : k ≠ "_document_type") (h2 : k ≠ "_text") (h3 : k ≠ "_id") :
    processTx t k = t k := by
  simp only [processTx]
  rw [setF_other _ _ _ _ h3, setF_other _ _ _ _ h2, setF_other _ _ _ _ h1]

theorem processTx_at_dt (t : Rec) :
    processTx t "_document_type" = some (.vStr "transaction") := rfl

theorem processTx_at_text (t : Rec) :
    processTx t "_text" = some (.vStr (txText t)) := rfl

theorem processTx_at_id (t : Rec) : processTx t "_id" = some (.vStr (txId t)) := rfl

theorem ofDigits_digitsRev : ∀ (fuel n : Nat), n ≤ fuel →
    Nat.ofDigits 10 (digitsRev fuel n) = n := by
  intro fuel
  induction fuel with
  | zero => intro n h; interval_cases n; simp [digitsRev]
  | succ f ih =>
    intro n h
    unfold digitsRev
    by_cases h0 : n = 0
    · simp [h0]
    · simp only [h0, if_false, Nat.ofDigits_cons]
      have hlt : n / 10 < n := Nat.div_lt_self (Nat.pos_of_ne_zero h0) (by norm_num)
      rw [ih (n / 10) (by omega)]
      omega

theorem digitsRev_lt : ∀ (fuel n d : Nat), d ∈ digitsRev fuel n → d < 10 := by
  intro fuel
  induction fuel with
  | zero => intro n d h; simp [digitsRev] at h
  | succ f ih =>
    intro n d h
    unfold digitsRev at h
    by_cases h0 : n = 0
    · simp [h0] at h
    · simp only [h0, if_false, List.mem_cons] at h
      rcases h with h | h
      · rw [h]; exact Nat.mod_lt n (by norm_num)
      · exact ih _ _ h

theorem charToDigit_digitChar : ∀ d < 10, charToDigit (Nat.digitChar d) = d := by decide

theorem digitChar_ne_underscore : ∀ d < 10, Nat.digitChar d ≠ '_' := by decide

theorem natVal_natStr (n : Nat) : natVal (natStr n) = n := by
  unfold natStr
  by_cases h0 : n = 0
  · simp only [h0, if_true]
    decide
  · simp only [h0, if_false]
    unfold natVal
    show Nat.ofDigits 10 ((((digitsRev n n).map Nat.digitChar).reverse).reverse.map charToDigit) = n
    rw [List.reverse_reverse, List.map_map]
    have hmc : ∀ d ∈ digitsRev n n, (charToDigit ∘ Nat.digitChar) d = id d := fun d hd => by
      simp only [Function.comp_apply, id_eq]
      exact charToDigit_digitChar d (digitsRev_lt n n d hd)
    rw [List.map_congr_left hmc, List.map_id]
    exact ofDigits_digitsRev n n le_rfl

theorem natStr_inj {a b : Nat} (h : natStr a = natStr b) : a = b := by
  have h2 := congrArg natVal h
  rwa [natVal_natStr, natVal_natStr] at h2

theorem underscore_not_in_natStr (n : Nat) : '_' ∉ (natStr n).data := by
  unfold natStr
  by_cases h0 : n = 0
  · simp only [h0, if_true]; decide
  · simp only [h0, if_false]
    show '_' ∉ ((digitsRev n n).map Nat.digitChar).reverse
    rw [List.mem_reverse]
    intro hmem
    obtain ⟨d, hd, hEq⟩ := List.mem_map.mp hmem
    exact digitChar_ne_underscore d (digitsRev_lt n n d hd) hEq

theorem append_single_inj {c : Char} :
    ∀ (x₁ : List Char) {x₂ y₁ y₂ : List Char}, c ∉ x₁ → c ∉ x₂ →
      x₁ ++ c :: y₁ = x₂ ++ c :: y₂ → x₁ = x₂ ∧ y₁ = y₂ := by
  intro x₁
  induction x₁ with
  | nil =>
    intro x₂ y₁ y₂ _ h₂ h
    cases x₂ with
    | nil => simpa using h
    | cons b x₂ =>
      simp only [List.nil_append, List.cons_append, List.cons.injEq] at h
      exact absurd (show c ∈ b :: x₂ by rw [h.1]; exact List.mem_cons_self b x₂) h₂
  | cons a x₁ ih =>
    intro x₂ y₁ y₂ h₁ h₂ h
    cases x₂ with
    | nil =>
      simp only [List.cons_append, List.nil_append, List.cons.injEq] at h
      exact absurd (show c ∈ a :: x₁ by rw [← h.1]; exact List.mem_cons_self a x₁) h₁
    | cons b x₂ =>
      simp only [List.cons_append, List.cons.injEq] at h
      have hr := ih (fun hm => h₁ (List.mem_cons_of_mem a hm))
        (fun hm => h₂ (List.mem_cons_of_mem b hm)) h.2
      exact ⟨by rw [h.1, hr.1], hr.2⟩

theorem blockIdStr_inj {a b a' b' : Nat}
    (h : ("block_" ++ natStr a ++ "_" ++ natStr b : String) =
      "block_" ++ natStr a' ++ "_" ++ natStr b') : a = a' ∧ b = b' := by
  have hd := congrArg String.data h
  simp only [String.data_append, List.append_assoc, List.singleton_append] at hd
  have hc := List.append_cancel_left hd
  have hp := append_single_inj (natStr a).data
    (underscore_not_in_natStr a) (underscore_not_in_natStr a') hc
  exact ⟨natStr_inj (String.ext hp.1), natStr_inj (String.ext hp.2)⟩

theorem txIdStr_inj {s t : String} (h : ("tx_" ++ s : String) = "tx_" ++ t) : s = t := by
  have hd := congrArg String.data h
  simp only [String.data_append] at hd
  exact String.ext (List.append_cancel_left hd)

theorem blockId_ne_txId (rb rt : Rec) : blockId rb ≠ txId rt := by
  intro h
  have hd := congrArg String.data h
  simp only [blockId, txId, String.data_append, List.append_assoc] at hd
  exact absurd (List.head_eq_of_cons_eq hd) (by decide)

theorem csub_mid (p q s t : String) (h : s = p ++ t ++ q) : containsSub s t := by
  refine ⟨p.data, q.data, ?_⟩
  rw [h]
  simp [String.data_append]

theorem drainQ_id : ∀ l : List Rec, drainQ l = l := by
  intro l
  induction l with
  | nil => rfl
  | cons d q ih => simp [drainQ, ih]

theorem foldl_put : ∀ (evs : List (Source × Rec)) (q : List Rec),
    List.foldl (fun q e => put q e.2) q evs = q ++ evs.map Prod.snd := by
  intro evs
  induction evs with
  | nil => intro q; simp
  | cons e evs ih => intro q; rw [List.foldl_cons, ih]; simp [put]

theorem appliedSeq_eq (evs : List (Source × Rec)) : appliedSeq evs = evs.map Prod.snd := by
  unfold appliedSeq enqueueTrace
  rw [foldl_put, drainQ_id, List.nil_append]

theorem streamRunAux_len (stop : Nat → Bool) (out : Nat → Outcome)
    (hstop : ∀ j, stop j = false) :
    ∀ fuel i, (streamRunAux stop out fuel i).length = fuel := by
  intro fuel
  induction fuel with
  | zero => intro i; rfl
  | succ f ih =>
    intro i
    unfold streamRunAux
    rw [hstop i]
    simp [ih]

theorem streamRunAux_delay (stop : Nat → Bool) (out : Nat → Outcome) :
    ∀ fuel i p, p ∈ streamRunAux stop out fuel i → p.2 = reconnectDelay (out p.1) := by
  intro fuel
  induction fuel with
  | zero => intro i p h; simp [streamRunAux] at h
  | succ f ih =>
    intro i p h
    unfold streamRunAux at h
    by_cases hs : stop i
    · simp [hs] at h
    · rw [if_neg hs] at h
      rcases List.mem_cons.mp h with h | h
      · rw [h]
      · exact ih _ _ h

theorem blockText_x_placeholder (r : Rec) (l : List Val) (h : r "X" = none) :
    containsSub (blockTextWith r l) "Block at [?, " := by
  have hr : renderGet r "X" = "?" := by unfold renderGet; rw [h]
  apply csub_mid ""
    (renderGet r "Y" ++ "]\n" ++ "Hash: " ++ renderGet r "Hash" ++ "\n" ++
      "Previous Hashes: X=" ++ renderGet r "PrevHashX" ++ ", Y=" ++ renderGet r "PrevHashY" ++
      "\n" ++ "Context: " ++ renderGet r "Context" ++ "\n" ++
      "Timestamp: " ++ renderGet r "Timestamp" ++ "\n" ++ "Transactions:\n" ++ txLines 1 l)
  unfold blockTextWith
  rw [hr]
  apply String.ext
  simp [String.data_append]

theorem blockText_y_placeholder (r : Rec) (l : List Val) (h : r "Y" = none) :
    containsSub (blockTextWith r l) ", ?]\n" := by
  have hr : renderGet r "Y" = "?" := by unfold renderGet; rw [h]
  apply csub_mid ("Block at [" ++ renderGet r "X")
    ("Hash: " ++ renderGet r "Hash" ++ "\n" ++
      "Previous Hashes: X=" ++ renderGet r "PrevHashX" ++ ", Y=" ++ renderGet r "PrevHashY" ++
      "\n" ++ "Context: " ++ renderGet r "Context" ++ "\n" ++
      "Timestamp: " ++ renderGet r "Timestamp" ++ "\n" ++ "Transactions:\n" ++ txLines 1 l)
  unfold blockTextWith
  rw [hr]
  apply String.ext
  simp [String.data_append]

theorem blockText_hash_placeholder (r : Rec) (l : List Val) (h : r "Hash" = none) :
    containsSub (blockTextWith r l) "Hash: ?\n" := by
  have hr : renderGet r "Hash" = "?" := by unfold renderGet; rw [h]
  apply csub_mid ("Block at [" ++ renderGet r "X" ++ ", " ++ renderGet r "Y" ++ "]\n")
    ("Previous Hashes: X=" ++ renderGet r "PrevHashX" ++ ", Y=" ++ renderGet r "PrevHashY" ++
      "\n" ++ "Context: " ++ renderGet r "Context" ++ "\n" ++
      "Timestamp: " ++ renderGet r "Timestamp" ++ "\n" ++ "Transactions:\n" ++ txLines 1 l)
  unfold blockTextWith
  rw [hr]
  apply String.ext
  simp [String.data_append]

theorem blockText_phx_placeholder (r : Rec) (l : List Val) (h : r "PrevHashX" = none) :
    containsSub (blockTextWith r l) "X=?, Y=" := by
  have hr : renderGet r "PrevHashX" = "?" := by unfold renderGet; rw [h]
  apply csub_mid
    ("Block at [" ++ renderGet r "X" ++ ", " ++ renderGet r "Y" ++ "]\n" ++
      "Hash: " ++ renderGet r "Hash" ++ "\n" ++ "Previous Hashes: ")
    (renderGet r "PrevHashY" ++ "\n" ++ "Context: " ++ renderGet r "Context" ++ "\n" ++
      "Timestamp: " ++ renderGet r "Timestamp" ++ "\n" ++ "Transactions:\n" ++ txLines 1 l)
  unfold blockTextWith
  rw [hr]
  apply String.ext
  simp [String.data_append]

theorem blockText_phy_placeholder (r : Rec) (l : List Val) (h : r "PrevHashY" = none) :
    containsSub (blockTextWith r l) ", Y=?\n" := by
  have hr : renderGet r "PrevHashY" = "?" := by unfold renderGet; rw [h]
  apply csub_mid
    ("Block at [" ++ renderGet r "X" ++ ", " ++ renderGet r "Y" ++ "]\n" ++
      "Hash: " ++ renderGet r "Hash" ++ "\n" ++ "Previous Hashes: X=" ++ renderGet r "PrevHashX")
    ("Context: " ++ renderGet r "Context" ++ "\n" ++
      "Timestamp: " ++ renderGet r "Timestamp" ++ "\n" ++ "Transactions:\n" ++ txLines 1 l)
  unfold blockTextWith
  rw [hr]
  apply String.ext
  simp [String.data_append]

theorem blockText_ctx_placeholder (r : Rec) (l : List Val) (h : r "Context" = none) :
    containsSub (blockTextWith r l) "Context: ?\n" := by
  have hr : renderGet r "Context" = "?" := by unfold renderGet; rw [h]
  apply csub_mid
    ("Block at [" ++ renderGet r "X" ++ ", " ++ renderGet r "Y" ++ "]\n" ++
      "Hash: " ++ renderGet r "Hash" ++ "\n" ++
      "Previous Hashes: X=" ++ renderGet r "PrevHashX" ++ ", Y=" ++ renderGet r "PrevHashY" ++ "\n")
    ("Timestamp: " ++ renderGet r "Timestamp" ++ "\n" ++ "Transactions:\n" ++ txLines 1 l)
  unfold blockTextWith
  rw [hr]
  apply String.ext
  simp [String.data_append]

theorem blockText_ts_placeholder (r : Rec) (l : List Val) (h : r "Timestamp" = none) :
    containsSub (blockTextWith r l) "Timestamp: ?\n" := by
  have hr : renderGet r "Timestamp" = "?" := by unfold renderGet; rw [h]
  apply csub_mid
    ("Block at [" ++ renderGet r "X" ++ ", " ++ renderGet r "Y" ++ "]\n" ++
      "Hash: " ++ renderGet r "Hash" ++ "\n" ++
      "Previous Hashes: X=" ++ renderGet r "PrevHashX" ++ ", Y=" ++ renderGet r "PrevHashY" ++
      "\n" ++ "Context: " ++ renderGet r "Context" ++ "\n")
    ("Transactions:\n" ++ txLines 1 l)
  unfold blockTextWith
  rw [hr]
  apply String.ext
  simp [String.data_append]

theorem txText_id_placeholder (t : Rec) (h : t "ID" = none) :
    containsSub (txText t) "Transaction ?\n" := by
  have hr : renderGet t "ID" = "?" := by unfold renderGet; rw [h]
  apply csub_mid "" ("Data: " ++ renderGet t "Data" ++ "\n")
  unfold txText
  rw [hr]
  apply String.ext
  simp [String.data_append]

theorem txText_data_placeholder (t : Rec) (h : t "Data" = none) :
    containsSub (txText t) "Data: ?\n" := by
  have hr : renderGet t "Data" = "?" := by unfold renderGet; rw [h]
  apply csub_mid ("Transaction " ++ renderGet t "ID" ++ "\n") ""
  unfold txText
  rw [hr]
  apply String.ext
  simp [String.data_append]

/-- C4: if the underlying model call fails, `embed_text` returns the
all-zero vector of the model's fixed dimension `D` and never propagates
the failure to its caller. -/
theorem c4_embed_text_zero_on_failure (m : Model) (text e : String)
    (h : m.encodeOne text = .error e) :
    embed_text m text = List.replicate m.dim 0 ∧
    (embed_text m text).length = m.dim ∧
    ∀ x ∈ embed_text m text, x = 0 := by
  have he : embed_text m text = List.replicate m.dim 0 := by
    unfold embed_text; rw [h]
  refine ⟨he, by rw [he]; exact List.length_replicate _ _, ?_⟩
  intro x hx
  rw [he] at hx
  exact List.eq_of_mem_replicate hx

/-- C4 witness: a concrete always-failing model of dimension 3. -/
theorem c4_embed_text_zero_on_failure_witness :
    embed_text failModel "hello" = List.replicate failModel.dim 0 ∧
    (embed_text failModel "hello").length = failModel.dim ∧
    ∀ x ∈ embed_text failModel "hello", x = 0 :=
  c4_embed_text_zero_on_failure failModel "hello" "model failure" rfl

/-- C5: `embed_batch` returns the model's vectors unchanged (one per input
text, in input order, whenever the model honours its length contract), and
on an engine-level failure returns one zero vector of length `D` per input
text, so the output length always equals the input length. -/
theorem c5_embed_batch_shape (m : Model) (texts : List String) :
    ((∀ vs, m.encodeMany texts = .ok vs → vs.length = texts.length) →
      (embed_batch m texts).length = texts.length) ∧
    (∀ vs, m.encodeMany texts = .ok vs → embed_batch m texts = vs) ∧
    (∀ e, m.encodeMany texts = .error e →
      embed_batch m texts = List.replicate texts.length (List.replicate m.dim 0) ∧
      ∀ v ∈ embed_batch m texts, v = List.replicate m.dim 0) := by
  cases h : m.encodeMany texts with
  | ok vs =>
    have he : embed_batch m texts = vs := by unfold embed_batch; rw [h]
    refine ⟨fun hlen => by rw [he]; exact hlen vs rfl, ?_, ?_⟩
    · intro vs' hvs'
      injection hvs' with h2
      rw [he, h2]
    · intro e' he'
      cases he'
  | error e =>
    have he : embed_batch m texts = List.replicate texts.length (List.replicate m.dim 0) := by
      unfold embed_batch; rw [h]
    refine ⟨fun _ => by rw [he]; exact List.length_replicate _ _, ?_, ?_⟩
    · intro vs' hvs'
      cases hvs'
    · intro e' he'
      refine ⟨he, fun v hv => ?_⟩
      rw [he] at hv
      exact List.eq_of_mem_replicate hv

/-- C5 witness: a concrete always-failing model and a two-element batch. -/
theorem c5_embed_batch_shape_witness :
    (embed_batch failModel ["a", "b"]).length = 2 ∧
    embed_batch failModel ["a", "b"] =
      List.replicate 2 (List.replicate failModel.dim 0) := by
  have h := c5_embed_batch_shape failModel ["a", "b"]
  exact ⟨h.1 (fun vs hvs => Except.noConfusion hvs),
    (h.2.2 "model failure" rfl).1⟩

/-- C6: the single consumer applies documents in exactly the FIFO enqueue
order, so for each producer source the applied order of its documents is
an order-preserving sublist of the interleaved trace: if one source
enqueues D1 before D2, D1 is applied no later than D2, for every
interleaving with the other source. -/
theorem c6_per_source_order (evs : List (Source × Rec)) (s : Source) :
    appliedSeq evs = evs.map Prod.snd ∧
    List.Sublist ((evs.filter (fun e => e.1 == s)).map Prod.snd) (appliedSeq evs) := by
  refine ⟨appliedSeq_eq evs, ?_⟩
  rw [appliedSeq_eq]
  exact List.Sublist.map Prod.snd (List.filter_sublist evs)

/-- C7 counterexample: with the stop signal never raised, a subscription
pass that ends without raising is re-attempted immediately (wait 0), not
after the fixed delay of 5 the claim states for every termination. -/
theorem c7_counterexample :
    streamRunAux stopNever alwaysEnded 1 0 = [(0, 0)] ∧
    streamRunAux stopNever alwaysEnded 1 0 ≠ [(0, 5)] := by
  exact ⟨rfl, by decide⟩

/-- C7 amended: when a subscription attempt terminates by raising and the
stop signal is unset, the supervisor waits exactly 5 time units and
re-attempts; a normally-exhausted subscription is re-attempted with no
wait; every recorded wait is a fixed function of that attempt's outcome
(no backoff growth), and with the stop signal never set the loop keeps
attempting without any retry limit, halting only when the stop signal is
observed at the loop head. -/
theorem c7_reconnect_amended (stop : Nat → Bool) (out : Nat → Outcome) (fuel i : Nat) :
    (stop i = false → streamRunAux stop out (fuel + 1) i =
      (i, reconnectDelay (out i)) :: streamRunAux stop out fuel (i + 1)) ∧
    (out i = .errored → reconnectDelay (out i) = 5) ∧
    (out i = .ended → reconnectDelay (out i) = 0) ∧
    (stop i = true → streamRunAux stop out (fuel + 1) i = []) ∧
    ((∀ j, stop j = false) → (streamRunAux stop out fuel i).length = fuel) ∧
    (∀ p ∈ streamRunAux stop out fuel i, p.2 = reconnectDelay (out p.1)) := by
  refine ⟨?_, ?_, ?_, ?_, fun hs => streamRunAux_len stop out hs fuel i,
    streamRunAux_delay stop out fuel i⟩
  · intro hs
    unfold streamRunAux
    rw [hs]
    simp
    cases fuel <;> rfl
  · intro ho; rw [ho]; rfl
  · intro ho; rw [ho]; rfl
  · intro hs
    unfold streamRunAux
    rw [hs]
    simp

/-- C7 amended witness: with errors on every attempt and the stop signal
never set, attempt 0 is followed by a wait of exactly 5, and two units of
fuel yield two attempts. -/
theorem c7_reconnect_amended_witness :
    streamRunAux stopNever alwaysErrored 2 0 =
      (0, reconnectDelay (alwaysErrored 0)) :: streamRunAux stopNever alwaysErrored 1 1 ∧
    reconnectDelay (alwaysErrored 0) = 5 ∧
    (streamRunAux stopNever alwaysErrored 2 0).length = 2 := by
  have hA := c7_reconnect_amended stopNever alwaysErrored 1 0
  have hB := c7_reconnect_amended stopNever alwaysErrored 2 0
  exact ⟨hA.1 rfl, hA.2.1 rfl, hB.2.2.2.2.1 (fun j => rfl)⟩

/-- C8: `start` awaits the initial load before launching the live-update
task, so the enqueue order is all snapshot-block documents, then all
pending-transaction documents, then the live stream's documents; the trace
prefix of the initial load is complete before the first streamed
document. -/
theorem c8_load_before_stream (blocks txs streamDocs : List Rec)
    (hb : (enqueueAll processBlock blocks).2 = true) :
    startTrace (.ok blocks) (.ok txs) streamDocs =
      ((enqueueAll processBlock blocks).1 ++
        (enqueueAll (fun t => some (processTx t)) txs).1) ++ streamDocs ∧
    (startTrace (.ok blocks) (.ok txs) streamDocs).take
        (loadInitialState (.ok blocks) (.ok txs)).length =
      loadInitialState (.ok blocks) (.ok txs) ∧
    (startTrace (.ok blocks) (.ok txs) streamDocs).drop
        (loadInitialState (.ok blocks) (.ok txs)).length = streamDocs := by
  have hl : loadInitialState (.ok blocks) (.ok txs) =
      (enqueueAll processBlock blocks).1 ++
        (enqueueAll (fun t => some (processTx t)) txs).1 := by
    unfold loadInitialState
    simp [hb]
  refine ⟨?_, ?_, ?_⟩
  · unfold startTrace
    rw [hl]
  · unfold startTrace
    exact List.take_left _ _
  · unfold startTrace
    exact List.drop_left _ _

/-- C8 witness: a one-block snapshot, a one-transaction snapshot and a
one-document live stream. -/
theorem c8_load_before_stream_witness :
    startTrace (.ok [emptyRec]) (.ok [emptyRec]) [emptyRec] =
      ((enqueueAll processBlock [emptyRec]).1 ++
        (enqueueAll (fun t => some (processTx t)) [emptyRec]).1) ++ [emptyRec] :=
  (c8_load_before_stream [emptyRec] [emptyRec] [emptyRec] rfl).1

/-- C10: if listing pending transactions raises after the block snapshot
was processed, `_load_initial_state` swallows the exception and returns
normally: every block document enqueued before the failure is kept (no
rollback), and `start` still proceeds to the streaming phase afterwards. -/
theorem c10_load_failure_swallowed (blocks : List Rec) (e : String)
    (streamDocs : List Rec) :
    loadInitialState (.ok blocks) (.error e) = (enqueueAll processBlock blocks).1 ∧
    startTrace (.ok blocks) (.error e) streamDocs =
      (enqueueAll processBlock blocks).1 ++ streamDocs := by
  have hl : loadInitialState (.ok blocks) (.error e) =
      (enqueueAll processBlock blocks).1 := by
    unfold loadInitialState
    cases h : (enqueueAll processBlock blocks).2 <;> simp [h]
  exact ⟨hl, by unfold startTrace; rw [hl]⟩

/-- C2: normalization is deterministic and stable under reprocessing:
feeding the record produced by `_process_block` (or
`_process_transaction`) back through the same function reproduces exactly
the same record — in particular the same `_id` and `_text` — so
reprocessing the same source event maps to the same index key rather than
creating a new one. -/
theorem c2_reprocess_stable (b t : Rec) :
    (processBlock b).bind processBlock = processBlock b ∧
    processTx (processTx t) = processTx t := by
  constructor
  · cases hd : enumData (b "Data") with
    | none => unfold processBlock; rw [hd]; rfl
    | some dataL =>
      have h1 : processBlock b = some (blockDoc b dataL) := by unfold processBlock; rw [hd]
      rw [h1, Option.some_bind]
      have hdata : (blockDoc b dataL) "Data" = b "Data" :=
        blockDoc_src b dataL "Data" (by decide) (by decide) (by decide)
      unfold processBlock
      rw [hdata, hd]
      show some (blockDoc (blockDoc b dataL) dataL) = some (blockDoc b dataL)
      congr 1
      funext k
      by_cases k1 : k = "_id"
      · subst k1
        rw [blockDoc_at_id, blockDoc_at_id,
          blockId_fields (blockDoc_src b dataL "X" (by decide) (by decide) (by decide))
            (blockDoc_src b dataL "Y" (by decide) (by decide) (by decide))]
      · by_cases k2 : k = "_text"
        · subst k2
          rw [blockDoc_at_text, blockDoc_at_text,
            blockTextWith_fields dataL
              (blockDoc_src b dataL "X" (by decide) (by decide) (by decide))
              (blockDoc_src b dataL "Y" (by decide) (by decide) (by decide))
              (blockDoc_src b dataL "Hash" (by decide) (by decide) (by decide))
              (blockDoc_src b dataL "PrevHashX" (by decide) (by decide) (by decide))
              (blockDoc_src b dataL "PrevHashY" (by decide) (by decide) (by decide))
              (blockDoc_src b dataL "Context" (by decide) (by decide) (by decide))
              (blockDoc_src b dataL "Timestamp" (by decide) (by decide) (by decide))]
        · by_cases k3 : k = "_document_type"
          · subst k3
            rw [blockDoc_at_dt, blockDoc_at_dt]
          · rw [blockDoc_src _ dataL k k3 k2 k1]
  · funext k
    by_cases k1 : k = "_id"
    · subst k1
      rw [processTx_at_id, processTx_at_id,
        txId_fields (processTx_src t "ID" (by decide) (by decide) (by decide))]
    · by_cases k2 : k = "_text"
      · subst k2
        rw [processTx_at_text, processTx_at_text,
          txText_fields (processTx_src t "ID" (by decide) (by decide) (by decide))
            (processTx_src t "Data" (by decide) (by decide) (by decide))]
      · by_cases k3 : k = "_document_type"
        · subst k3
          rw [processTx_at_dt, processTx_at_dt]
        · rw [processTx_src _ k k3 k2 k1]

/-- C1 counterexample: two block records with different source field
contents — one lacking `Y`, the other carrying `Y = 0` — receive the same
derived id `block_1_0`, so the derived ids are not globally unique across
records with missing fields. -/
theorem c1_counterexample :
    blockId blkMissingY = blockId blkAtOneZero ∧
    (blkMissingY "Y").isSome = false ∧
    (blkAtOneZero "Y").isSome = true ∧
    blockId blkMissingY = "block_1_0" := by
  refine ⟨by decide, rfl, rfl, by decide⟩

/-- C1 amended: ids have the stated shapes — `block_<X>_<Y>` with a
missing coordinate defaulting to 0, and `tx_<ID>` with a missing id
defaulting to the empty string; a block id never collides with a
transaction id; block ids are injective in the coordinate pair for
records whose `X` and `Y` are present numeric fields, and transaction ids
are injective in a present string `ID`; records with missing fields may
collide. -/
theorem c1_id_derivation_amended :
    (∀ b r, processBlock b = some r → r "_id" = some (.vStr (blockId b))) ∧
    (∀ t, processTx t "_id" = some (.vStr (txId t))) ∧
    (∀ rb rt, blockId rb ≠ txId rt) ∧
    (∀ r r' a b a' b', r "X" = some (.vNat a) → r "Y" = some (.vNat b) →
      r' "X" = some (.vNat a') → r' "Y" = some (.vNat b') →
      blockId r = blockId r' → a = a' ∧ b = b') ∧
    (∀ t t' s s', t "ID" = some (.vStr s) → t' "ID" = some (.vStr s') →
      txId t = txId t' → s = s') := by
  refine ⟨?_, fun t => processTx_at_id t, blockId_ne_txId, ?_, ?_⟩
  · intro b r h
    unfold processBlock at h
    cases hd : enumData (b "Data") <;> rw [hd] at h
    · cases h
    · injection h with h
      rw [← h]
      exact blockDoc_at_id b _
  · intro r r' a b a' b' hX hY hX' hY' h
    have e1 : blockId r = "block_" ++ natStr a ++ "_" ++ natStr b := by
      unfold blockId getD
      rw [hX, hY]
      rfl
    have e2 : blockId r' = "block_" ++ natStr a' ++ "_" ++ natStr b' := by
      unfold blockId getD
      rw [hX', hY']
      rfl
    rw [e1, e2] at h
    exact blockIdStr_inj h
  · intro t t' s s' hI hI' h
    have e1 : txId t = "tx_" ++ s := by
      unfold txId getD
      rw [hI]
      rfl
    have e2 : txId t' = "tx_" ++ s' := by
      unfold txId getD
      rw [hI']
      rfl
    rw [e1, e2] at h
    exact txIdStr_inj h

/-- C1 amended witness: the id stored for a processed empty block record,
distinctness of block ids for distinct present coordinate pairs whose
renderings chunk differently, distinctness of transaction ids, and the
block/transaction id separation on a deliberately confusable input. -/
theorem c1_id_derivation_amended_witness :
    ((processBlock emptyRec).getD emptyRec) "_id" = some (.vStr (blockId emptyRec)) ∧
    blockId (blockRecXY 12 3) ≠ blockId (blockRecXY 1 23) ∧
    txId (txRecID "a") ≠ txId (txRecID "b") ∧
    blockId (blockRecXY 1 2) ≠ txId (txRecID "1_2") := by
  refine ⟨c1_id_derivation_amended.1 emptyRec _ rfl, ?_, ?_,
    c1_id_derivation_amended.2.2.1 (blockRecXY 1 2) (txRecID "1_2")⟩
  · intro h
    have h2 := c1_id_derivation_amended.2.2.2.1 (blockRecXY 12 3) (blockRecXY 1 23)
      12 3 1 23 rfl rfl rfl rfl h
    exact absurd h2.1 (by decide)
  · intro h
    have h2 := c1_id_derivation_amended.2.2.2.2 (txRecID "a") (txRecID "b")
      "a" "b" rfl rfl h
    exact absurd h2 (by decide)

set_option maxRecDepth 8192 in
/-- C3 counterexample: a block record with every consumed field present
except `Data` yields a text containing no placeholder token at all — the
missing `Data` field is rendered as an empty transaction listing, not as a
placeholder. -/
theorem c3_counterexample :
    (blkNoData "Data").isSome = false ∧
    (∃ r, processBlock blkNoData = some r ∧
      r "_text" = some (.vStr (blockDocText blkNoData))) ∧
    ¬ containsSub (blockDocText blkNoData) "?" := by
  refine ⟨rfl, ⟨blockDoc blkNoData [], rfl, rfl⟩, by decide⟩

/-- C3 amended: normalization is total on records whose `Data`, when
present, is iterable (always the case for the upstream's block shape), and
each missing scalar field among X, Y, Hash, PrevHashX, PrevHashY, Context,
Timestamp and ID is rendered as a `?` placeholder in the produced text; a
missing `Data` renders as an empty transaction listing rather than a
placeholder. -/
theorem c3_totality_amended (b t : Rec) :
    (DataOk b → (processBlock b).isSome = true) ∧
    (b "X" = none → containsSub (blockDocText b) "Block at [?, ") ∧
    (b "Y" = none → containsSub (blockDocText b) ", ?]\n") ∧
    (b "Hash" = none → containsSub (blockDocText b) "Hash: ?\n") ∧
    (b "PrevHashX" = none → containsSub (blockDocText b) "X=?, Y=") ∧
    (b "PrevHashY" = none → containsSub (blockDocText b) ", Y=?\n") ∧
    (b "Context" = none → containsSub (blockDocText b) "Context: ?\n") ∧
    (b "Timestamp" = none → containsSub (blockDocText b) "Timestamp: ?\n") ∧
    (b "Data" = none → ∃ u, blockDocText b = u ++ "Transactions:\n") ∧
    (t "ID" = none → containsSub (txText t) "Transaction ?\n") ∧
    (t "Data" = none → containsSub (txText t) "Data: ?\n") := by
  refine ⟨?_, ?_, ?_, ?_, ?_, ?_, ?_, ?_, ?_,
    txText_id_placeholder t, txText_data_placeholder t⟩
  · intro h
    unfold DataOk at h
    unfold processBlock
    cases hd : enumData (b "Data")
    · rw [hd] at h; cases h
    · rfl
  · intro h
    unfold blockDocText
    apply blockText_x_placeholder
    rw [setF_other _ _ _ _ (by decide : ("X" : String) ≠ "_document_type")]
    exact h
  · intro h
    unfold blockDocText
    apply blockText_y_placeholder
    rw [setF_other _ _ _ _ (by decide : ("Y" : String) ≠ "_document_type")]
    exact h
  · intro h
    unfold blockDocText
    apply blockText_hash_placeholder
    rw [setF_other _ _ _ _ (by decide : ("Hash" : String) ≠ "_document_type")]
    exact h
  · intro h
    unfold blockDocText
    apply blockText_phx_placeholder
    rw [setF_other _ _ _ _ (by decide : ("PrevHashX" : String) ≠ "_document_type")]
    exact h
  · intro h
    unfold blockDocText
    apply blockText_phy_placeholder
    rw [setF_other _ _ _ _ (by decide : ("PrevHashY" : String) ≠ "_document_type")]
    exact h
  · intro h
    unfold blockDocText
    apply blockText_ctx_placeholder
    rw [setF_other _ _ _ _ (by decide : ("Context" : String) ≠ "_document_type")]
    exact h
  · intro h
    unfold blockDocText
    apply blockText_ts_placeholder
    rw [setF_other _ _ _ _ (by decide : ("Timestamp" : String) ≠ "_document_type")]
    exact h
  · intro h
    refine ⟨"Block at [" ++ renderGet (setF b "_document_type" (.vStr "block")) "X" ++ ", " ++
      renderGet (setF b "_document_type" (.vStr "block")) "Y" ++ "]\n" ++
      "Hash: " ++ renderGet (setF b "_document_type" (.vStr "block")) "Hash" ++ "\n" ++
      "Previous Hashes: X=" ++ renderGet (setF b "_document_type" (.vStr "block")) "PrevHashX" ++
      ", Y=" ++ renderGet (setF b "_document_type" (.vStr "block")) "PrevHashY" ++ "\n" ++
      "Context: " ++ renderGet (setF b "_document_type" (.vStr "block")) "Context" ++ "\n" ++
      "Timestamp: " ++ renderGet (setF b "_document_type" (.vStr "block")) "Timestamp" ++ "\n", ?_⟩
    unfold blockDocText blockTextWith
    rw [h]
    apply String.ext
    simp [String.data_append, enumData, txLines]

/-- C3 amended witness: the wholly-empty record is processed successfully
and its text carries the placeholders. -/
theorem c3_totality_amended_witness :
    (processBlock emptyRec).isSome = true ∧
    containsSub (blockDocText emptyRec) "Hash: ?\n" ∧
    containsSub (txText emptyRec) "Transaction ?\n" := by
  have h := c3_totality_amended emptyRec emptyRec
  exact ⟨h.1 rfl, h.2.2.2.1 rfl, h.2.2.2.2.2.2.2.2.2.1 rfl⟩

/-- C9 counterexample: the stored metadata is not the original record
verbatim — processing the empty record adds an `_id` field (besides
`_text` and `_document_type`) to the record that becomes the metadata. -/
theorem c9_counterexample :
    ∃ r, processBlock emptyRec = some r ∧
      (r "_id").isSome = true ∧ (emptyRec "_id").isSome = false :=
  ⟨blockDoc emptyRec [], rfl, rfl, rfl⟩

/-- C9 amended: normalization preserves every original field of the source
record unmodified in the record that becomes the stored metadata, but adds
the three derived fields `_document_type`, `_text` and `_id` to it. -/
theorem c9_metadata_amended (b t r : Rec) (hb : processBlock b = some r) :
    (∀ k, k ≠ "_document_type" → k ≠ "_text" → k ≠ "_id" →
      r k = b k ∧ processTx t k = t k) ∧
    (r "_document_type").isSome = true ∧
    (r "_text").isSome = true ∧
    (r "_id").isSome = true ∧
    ((processTx t) "_document_type").isSome = true ∧
    ((processTx t) "_text").isSome = true ∧
    ((processTx t) "_id").isSome = true := by
  unfold processBlock at hb
  cases hd : enumData (b "Data") <;> rw [hd] at hb
  · cases hb
  · injection hb with hb
    subst hb
    refine ⟨fun k h1 h2 h3 => ⟨blockDoc_src b _ k h1 h2 h3, processTx_src t k h1 h2 h3⟩,
      ?_, ?_, ?_, ?_, ?_, ?_⟩
    · rw [blockDoc_at_dt]; rfl
    · rw [blockDoc_at_text]; rfl
    · rw [blockDoc_at_id]; rfl
    · rw [processTx_at_dt]; rfl
    · rw [processTx_at_text]; rfl
    · rw [processTx_at_id]; rfl

/-- C9 amended witness: the processed empty block record agrees with the
original on a source key and carries the added `_id`. -/
theorem c9_metadata_amended_witness :
    ((processBlock emptyRec).getD emptyRec) "X" = emptyRec "X" ∧
    (((processBlock emptyRec).getD emptyRec) "_id").isSome = true := by
  have h := c9_metadata_amended emptyRec emptyRec ((processBlock emptyRec).getD emptyRec) rfl
  exact ⟨(h.1 "X" (by decide) (by decide) (by decide)).1, h.2.2.2.1⟩
